import Mathlib

/-!
Verification of the sequential-thinking reasoning-chain engine of
`tools.py` (sections `_tokens`, `_similarity`, `_load_thoughts`,
`_save_thoughts_to_file`, `_load_thoughts_from_file`, `_add_thought`,
`_format_thoughts`, `sequential_think`, `sequential_review`).

Modelling conventions:
* machine-level side effects (current time, fresh uuid, the sentence
  embedding model) enter as explicit parameters; the embedding model is an
  oracle `Option (String -> String -> Rat)` giving the cosine-similarity
  score when the model is loaded, `none` when unavailable;
* Python exceptions raised by `_add_thought` become an `Except` value;
* the persistent stores (MongoDB primary, jsonl file fallback) are a
  `Storage` record mapping session ids to chains; a file line list stands
  for the jsonl content, and `sorted(..., key=step)` is a stable merge
  sort by `step`.
-/

namespace SeqThink

/-- `MAX_DEPTH = 100` in tools.py. -/
def MAX_DEPTH : Nat := 100

/-- `MAX_TOKENS = 50000` in tools.py. -/
def MAX_TOKENS : Nat := 50000

/-- Python `str.lower()` (ASCII case mapping). -/
def pyLower (s : String) : String := String.mk (s.toList.map Char.toLower)

/-- Splitter for Python `str.split()` with no argument: cut at maximal
whitespace runs, dropping empty pieces; `cur` accumulates the current
word reversed. -/
def wordsAux (cur : List Char) : List Char → List (List Char)
  | [] => if cur = [] then [] else [cur.reverse]
  | c :: rest =>
    if c.isWhitespace then
      if cur = [] then wordsAux [] rest else cur.reverse :: wordsAux [] rest
    else wordsAux (c :: cur) rest

/-- Python `str.split()` with no argument: split on whitespace and drop
empty pieces. -/
def pyWords (s : String) : List String :=
  (wordsAux [] s.toList).map String.mk

/-- `_tokens`: whitespace word count of a text. -/
def tokens (s : String) : Nat := (pyWords s).length

/-- the set `set(s.lower().split())` used by the `_similarity` fallback. -/
def wordSet (s : String) : Finset String := (pyWords (pyLower s)).toFinset

/-- The lexical fallback of `_similarity`: Jaccard similarity of the
lowercased word sets, `0` when either set is empty. -/
def jaccard (a b : String) : ℚ :=
  if wordSet a = ∅ ∨ wordSet b = ∅ then 0
  else ((wordSet a ∩ wordSet b).card : ℚ) / ((wordSet a ∪ wordSet b).card : ℚ)

/-- The ambient nondeterminism of the engine: `embed` is the similarity
oracle when the sentence-embedding model loaded (`_embed is not None`),
`semHash` stands for `_semantic_hash`. -/
structure Config where
  embed : Option (String → String → ℚ)
  semHash : String → String

/-- `_similarity`: embedding cosine similarity when the model is
available, Jaccard fallback otherwise. -/
def similarityFn (cfg : Config) (a b : String) : ℚ :=
  match cfg.embed with
  | none => jaccard a b
  | some f => f a b

/-- One entry of a reasoning chain, as built by `_add_thought`.
`parent` is present only on branch-created entries. -/
structure Thought where
  step : Nat
  text : String
  timestamp : Nat
  uuid : String
  semantic_id : String
  confidence : ℚ
  parent : Option Int
deriving DecidableEq, Repr

/-- The contradiction marker list of `_add_thought`. -/
def contradictionKeywords : List String :=
  ["however", "but", "actually", "wait", "no"]

/-- Contiguous-subsequence test, the Python `in` operator on strings
viewed as character lists. -/
def hasSub (needle hay : List Char) : Bool :=
  match hay with
  | [] => needle.isEmpty
  | _ :: t => needle.isPrefixOf hay || hasSub needle t

/-- `any(keyword in text.lower() for keyword in contradiction_keywords)`:
substring containment of a marker in the lowercased text. -/
def isContradiction (text : String) : Bool :=
  contradictionKeywords.any (fun kw => hasSub kw.toList (pyLower text).toList)

/-- The ways `_add_thought` raises. -/
inductive ThinkError
  | tokenBudget
  | maxDepth
  | invalidIndex
  | unknownOp
deriving DecidableEq, Repr

/-- `str(e)` of each exception raised by `_add_thought`. -/
def errMsg : ThinkError → String
  | .tokenBudget => "Token budget exceeded"
  | .maxDepth => "Maximum depth reached"
  | .invalidIndex => "Invalid branch_from index"
  | .unknownOp => "Unknown operation"

/-- Cumulative whitespace-token count of a chain
(`sum(_tokens(t["text"]) for t in thoughts)`). -/
def tokenSum (thoughts : List Thought) : Nat :=
  (thoughts.map (fun t => tokens t.text)).sum

/-- The last entry after a merge: text extended with the delimited
addendum, timestamp refreshed. -/
def mergedWith (last : Thought) (text : String) (now : Nat) : Thought :=
  { last with text := last.text ++ "\n[merged] " ++ text, timestamp := now }

/-- The duplicate check of `_add_thought`: when the chain is non-empty,
the embedding model is loaded and the text carries no contradiction
marker, a similarity above `0.92` merges the text into the last entry. -/
def dedupMerge (cfg : Config) (thoughts : List Thought) (text : String)
    (now : Nat) : Option (List Thought × Thought) :=
  match thoughts.getLast? with
  | none => none
  | some last =>
    if cfg.embed.isSome && !(isContradiction text) then
      if similarityFn cfg last.text text > 92/100 then
        some (thoughts.dropLast ++ [mergedWith last text now],
              mergedWith last text now)
      else none
    else none

/-- The fresh entry built by `_add_thought` (`new_thought`). -/
def newThought (cfg : Config) (thoughts : List Thought) (text : String)
    (now : Nat) (newUuid : String) : Thought :=
  { step := thoughts.length, text := text, timestamp := now, uuid := newUuid,
    semantic_id := cfg.semHash text, confidence := 95/100, parent := none }

/-- `thoughts[i].update(\x7b"text": text, "timestamp": now\x7d)`: in-place
update of entry `i`. -/
def reviseAt (l : List Thought) (i : Nat) (text : String) (now : Nat) :
    List Thought :=
  match l, i with
  | [], _ => []
  | t :: ts, 0 => { t with text := text, timestamp := now } :: ts
  | t :: ts, n + 1 => t :: reviseAt ts n text now

/-- The part of `_add_thought` past the budget checks: duplicate merge,
then operation dispatch. -/
def mutate (cfg : Config) (thoughts : List Thought) (text : String)
    (branchFrom : Option Int) (operation : String) (now : Nat)
    (newUuid : String) : Except ThinkError (List Thought × Thought) :=
  match dedupMerge cfg thoughts text now with
  | some result => .ok result
  | none =>
    let nt := newThought cfg thoughts text now newUuid
    if operation = "append" ∨ branchFrom = none then
      .ok (thoughts ++ [nt], nt)
    else
      match branchFrom with
      | none => .error .unknownOp
      | some i =>
        if operation = "revise" then
          if 0 ≤ i ∧ i < (thoughts.length : Int) then
            .ok (reviseAt thoughts i.toNat text now, nt)
          else .error .invalidIndex
        else if operation = "branch" then
          if 0 ≤ i ∧ i < (thoughts.length : Int) then
            .ok (thoughts ++ [{ nt with parent := some i }],
                 { nt with parent := some i })
          else .error .invalidIndex
        else .error .unknownOp

/-- `_add_thought`: budget checks, duplicate merge, then operation
dispatch. Returns the updated chain paired with the entry the Python
function returns. -/
def addThought (cfg : Config) (thoughts : List Thought) (text : String)
    (branchFrom : Option Int) (operation : String) (now : Nat)
    (newUuid : String) : Except ThinkError (List Thought × Thought) :=
  if MAX_TOKENS < tokenSum thoughts + tokens text then
    .error .tokenBudget
  else if MAX_DEPTH ≤ thoughts.length then
    .error .maxDepth
  else
    mutate cfg thoughts text branchFrom operation now newUuid

/-- Python `f"\x7bstep:02d\x7d"`: decimal, zero-padded to width 2. -/
def pad2 (n : Nat) : String :=
  if n < 10 then "0" ++ toString n else toString n

/-- One line of `_format_thoughts`. -/
def formatThought (t : Thought) : String :=
  let head := pad2 t.step ++
    (match t.parent with | some p => "→" ++ toString p | none => "")
  let indent := match t.parent with | some _ => "  " | none => ""
  indent ++ head ++ ": " ++ t.text

/-- `_format_thoughts` applied to an already-loaded chain. -/
def formatThoughts (thoughts : List Thought) : String :=
  if thoughts = [] then "No thoughts recorded yet."
  else String.intercalate "\n" (thoughts.map formatThought)

/-- Python `str.strip()`: remove leading and trailing whitespace. -/
def pyStrip (s : String) : String :=
  String.mk (((s.toList.dropWhile Char.isWhitespace).reverse.dropWhile
    Char.isWhitespace).reverse)

/-- Digit-string parser backing the model of Python `int()`. -/
def digitsToNat? (cs : List Char) : Option Nat :=
  match cs with
  | [] => none
  | _ =>
    if cs.all Char.isDigit then
      some (cs.foldl (fun n c => 10 * n + (c.toNat - 48)) 0)
    else none

/-- Python `int(s)` on a decimal string, an optional sign followed by
digits; `none` models the `ValueError` branch. -/
def pyInt? (s : String) : Option Int :=
  match s.toList with
  | '-' :: rest => (digitsToNat? rest).map (fun n => -(n : Int))
  | '+' :: rest => (digitsToNat? rest).map (fun n => (n : Int))
  | cs => (digitsToNat? cs).map (fun n => (n : Int))

/-- The `branch_from` parse of `sequential_think`: the literal string
"None" maps to an absent index, otherwise `int(branch_from)`; `none` is
a parse failure. -/
def parseBranchFrom (s : String) : Option (Option Int) :=
  if s = "None" then some none
  else
    match pyInt? s with
    | some i => some (some i)
    | none => none

/-- `sequential_think` at the chain level: validation, `_add_thought`,
exception-to-string handler. Returns the resulting chain and the reply
string. -/
def sequentialThink (cfg : Config) (thoughts : List Thought)
    (thought : String) (branchFrom : String) (operation : String)
    (now : Nat) (newUuid : String) : List Thought × String :=
  if pyStrip thought = "" then
    (thoughts, "Please provide a non-empty thought.")
  else
    match parseBranchFrom branchFrom with
    | none => (thoughts, "Invalid branch_from value. Use integer or \x27None\x27.")
    | some bf =>
      match addThought cfg thoughts (pyStrip thought) bf operation now newUuid with
      | .ok (chain, _) => (chain, formatThoughts chain)
      | .error e => (thoughts, "Error in sequential thinking: " ++ errMsg e)

/-- The two persistence backends: the MongoDB primary (unavailable when
the import or connection raises) and the jsonl file fallback, as
session-id-indexed maps. `file sid = none` models an absent file. -/
structure Storage where
  mongoAvailable : Bool
  mongo : String → List Thought
  file : String → Option (List Thought)

/-- `_load_thoughts_from_file`: read the lines of the session file (empty
when absent) and sort by `step` ascending. -/
def loadThoughtsFromFile (st : Storage) (sid : String) : List Thought :=
  match st.file sid with
  | none => []
  | some lines => lines.mergeSort (fun a b => a.step ≤ b.step)

/-- `_save_thoughts_to_file`: overwrite the session file with the chain. -/
def saveThoughtsToFile (st : Storage) (sid : String)
    (thoughts : List Thought) : Storage :=
  { st with file := fun s => if s = sid then some thoughts else st.file s }

/-- `_load_thoughts`: MongoDB first; on exception or an empty result,
fall back to the file backend. -/
def loadThoughts (st : Storage) (sid : String) : List Thought :=
  if st.mongoAvailable then
    match st.mongo sid with
    | [] => loadThoughtsFromFile st sid
    | t :: ts => t :: ts
  else loadThoughtsFromFile st sid

/-- `sequential_review`: with `clear` set, unlink only the session file
and confirm; otherwise format the loaded chain. -/
def sequentialReview (st : Storage) (sid : String) (clear : Bool) :
    Storage × String :=
  if clear then
    ({ st with file := fun s => if s = sid then none else st.file s },
     "Session \x27" ++ sid ++ "\x27 cleared.")
  else
    (st, formatThoughts (loadThoughts st sid))

/-- Success precondition of the budget checks at the top of
`_add_thought`. -/
def withinBudget (thoughts : List Thought) (text : String) : Prop :=
  tokenSum thoughts + tokens text ≤ MAX_TOKENS ∧ thoughts.length < MAX_DEPTH

/-- Iterated `_add_thought` with `operation="append"`, `branch_from`
absent; each input supplies the text, the clock value and the fresh
uuid of one call. -/
def appendMany (cfg : Config) (inputs : List (String × Nat × String))
    (c : List Thought) : Except ThinkError (List Thought) :=
  match inputs with
  | [] => .ok c
  | (t, now, u) :: rest =>
    match addThought cfg c t none "append" now u with
    | .error e => .error e
    | .ok (c1, _) => appendMany cfg rest c1

instance (thoughts : List Thought) (text : String) :
    Decidable (withinBudget thoughts text) :=
  inferInstanceAs (Decidable (_ ∧ _))

/-- A run with the embedding model unavailable. -/
def cfgNone : Config := ⟨none, fun _ => "h"⟩

/-- A run whose embedding oracle reports similarity `1` for every pair. -/
def cfgOne : Config := ⟨some (fun _ _ => 1), fun _ => "h"⟩

/-- Sample chain entry used by the concrete instances below. -/
def tA : Thought := ⟨0, "alpha beta", 0, "u0", "h", 95/100, none⟩

/-- The entry `_add_thought` appends after `tA` for the text
"alpha beta" at time 1. -/
def tA1 : Thought := ⟨1, "alpha beta", 1, "u1", "h", 95/100, none⟩

/-- The entry `_add_thought` appends after `tA` for the text "normal"
at time 1. -/
def tN : Thought := ⟨1, "normal", 1, "u1", "h", 95/100, none⟩

/-- A chain already at the depth limit. -/
def chain100 : List Thought :=
  (List.range 100).map (fun i => ⟨i, "t", 0, "u", "h", 95/100, none⟩)

/-- First entry produced by the two-append run below. -/
def tW0 : Thought := ⟨0, "alpha", 0, "u1", "h", 95/100, none⟩

/-- Second entry produced by the two-append run below. -/
def tW1 : Thought := ⟨1, "gamma delta", 1, "u2", "h", 95/100, none⟩

/-- Step-0 entry of the out-of-order file round-trip example. -/
def tS0 : Thought := ⟨0, "zero entry", 0, "s0", "h", 95/100, none⟩

/-- Step-1 entry of the out-of-order file round-trip example. -/
def tS1 : Thought := ⟨1, "one entry", 1, "s1", "h", 95/100, none⟩

/-- A storage state whose MongoDB primary holds a chain for every
session and with no session files. -/
def stMongo : Storage := ⟨true, fun _ => [tA], fun _ => none⟩

/-- A storage state with the MongoDB primary unavailable and no session
files. -/
def stEmpty : Storage := ⟨false, fun _ => [], fun _ => none⟩

theorem addThought_of_withinBudget (cfg : Config) (thoughts : List Thought)
    (text : String) (bf : Option Int) (op : String) (now : Nat) (u : String)
    (hb : withinBudget thoughts text) :
    addThought cfg thoughts text bf op now u =
      mutate cfg thoughts text bf op now u := by
  unfold addThought
  rw [if_neg (Nat.not_lt.mpr hb.1), if_neg (Nat.not_le.mpr hb.2)]

theorem dedupMerge_embed_none (cfg : Config) (thoughts : List Thought)
    (text : String) (now : Nat) (hcfg : cfg.embed = none) :
    dedupMerge cfg thoughts text now = none := by
  unfold dedupMerge
  cases h : thoughts.getLast? with
  | none => rfl
  | some last => simp [hcfg]

theorem dedupMerge_contradiction (cfg : Config) (thoughts : List Thought)
    (text : String) (now : Nat) (hc : isContradiction text = true) :
    dedupMerge cfg thoughts text now = none := by
  unfold dedupMerge
  cases h : thoughts.getLast? with
  | none => rfl
  | some last => simp [hc]

theorem mutate_append (cfg : Config) (thoughts : List Thought)
    (text : String) (bf : Option Int) (op : String) (now : Nat) (u : String)
    (hm : dedupMerge cfg thoughts text now = none)
    (hop : op = "append" ∨ bf = none) :
    mutate cfg thoughts text bf op now u =
      .ok (thoughts ++ [newThought cfg thoughts text now u],
           newThought cfg thoughts text now u) := by
  unfold mutate
  rw [hm, if_pos hop]

/-- C1 counterexample: with the embedding model unavailable, appending
"alpha beta" to the one-entry chain `[tA]` (whose entry has the same
text, Jaccard similarity `1 > 0.92`, no contradiction marker) does NOT
merge: a second entry is appended, because `_add_thought` skips
deduplication entirely whenever `_embed is None`. -/
theorem C1_counterexample :
    jaccard "alpha beta" "alpha beta" > 92 / 100 ∧
    isContradiction "alpha beta" = false ∧
    cfgNone.embed = none ∧
    addThought cfgNone [tA] "alpha beta" none "append" 1 "u1" =
      .ok ([tA, tA1], tA1) := by
  refine ⟨?_, by decide, rfl, rfl⟩
  have h1 : ¬(wordSet "alpha beta" = ∅ ∨ wordSet "alpha beta" = ∅) := by decide
  have h2 : (wordSet "alpha beta" ∩ wordSet "alpha beta").card = 2 := by decide
  have h3 : (wordSet "alpha beta" ∪ wordSet "alpha beta").card = 2 := by decide
  unfold jaccard
  rw [if_neg h1, h2, h3]
  norm_num

/-- C1 (amended): when no sentence-embedding model is available,
`_similarity` is the Jaccard similarity over lowercased
whitespace-tokenized word sets, but `_add_thought` never consults it:
deduplication is skipped entirely and every in-budget append creates a
new entry, regardless of similarity to the last entry. -/
theorem C1_thm (cfg : Config) (thoughts : List Thought) (text : String)
    (now : Nat) (u : String) (hcfg : cfg.embed = none)
    (hb : withinBudget thoughts text) :
    (∀ a b, similarityFn cfg a b = jaccard a b) ∧
    addThought cfg thoughts text none "append" now u =
      .ok (thoughts ++ [newThought cfg thoughts text now u],
           newThought cfg thoughts text now u) := by
  constructor
  · intro a b
    unfold similarityFn
    rw [hcfg]
  · rw [addThought_of_withinBudget cfg thoughts text none "append" now u hb]
    exact mutate_append cfg thoughts text none "append" now u
      (dedupMerge_embed_none cfg thoughts text now hcfg) (Or.inl rfl)

/-- C1 witness: the amended statement instantiated on the concrete
chain `[tA]` and the candidate "alpha beta". -/
theorem C1_witness :
    (∀ a b, similarityFn cfgNone a b = jaccard a b) ∧
    addThought cfgNone [tA] "alpha beta" none "append" 1 "u1" =
      .ok ([tA] ++ [newThought cfgNone [tA] "alpha beta" 1 "u1"],
           newThought cfgNone [tA] "alpha beta" 1 "u1") :=
  C1_thm cfgNone [tA] "alpha beta" 1 "u1" rfl (by decide)

/-- C2 counterexample: on a chain already at the maximum depth, a
`revise` with the valid index 0 is rejected with the depth error — the
budget checks run before the operation dispatch, so they do NOT apply
to `append` only. -/
theorem C2_counterexample :
    chain100.length = MAX_DEPTH ∧
    (0 : Int) < (chain100.length : Int) ∧
    addThought cfgNone chain100 "a closer look" (some 0) "revise" 0 "u" =
      .error .maxDepth := by
  refine ⟨by decide, by decide, rfl⟩

/-- C2 (amended): the depth-limit and token-budget checks of
`_add_thought` run before the operation dispatch and therefore apply to
every operation: any invocation — `append`, `revise` or `branch`, with
any index — is rejected with the token error when the candidate would
push the cumulative token count over the budget, and with the depth
error when the chain is at the maximum depth. -/
theorem C2_thm (cfg : Config) (thoughts : List Thought) (text : String)
    (bf : Option Int) (op : String) (now : Nat) (u : String) :
    (MAX_TOKENS < tokenSum thoughts + tokens text →
      addThought cfg thoughts text bf op now u = .error .tokenBudget) ∧
    (tokenSum thoughts + tokens text ≤ MAX_TOKENS →
      MAX_DEPTH ≤ thoughts.length →
      addThought cfg thoughts text bf op now u = .error .maxDepth) := by
  constructor
  · intro h
    unfold addThought
    rw [if_pos h]
  · intro h1 h2
    unfold addThought
    rw [if_neg (Nat.not_lt.mpr h1), if_pos h2]

/-- C2 witness: a `branch` with the valid index 0 on the depth-limited
chain is rejected with the depth error. -/
theorem C2_witness :
    addThought cfgNone chain100 "extra detail" (some 0) "branch" 0 "u" =
      .error .maxDepth :=
  (C2_thm cfgNone chain100 "extra detail" (some 0) "branch" 0 "u").2
    (by decide) (by decide)

/-- C3 counterexample: with a chain for "s1" in the MongoDB primary,
`review("s1", clear=true)` followed by `review("s1", clear=false)` does
NOT return the empty-chain sentinel: the clear path unlinks only the
session file, and the subsequent load still observes the primary
store. -/
theorem C3_counterexample :
    (sequentialReview (sequentialReview stMongo "s1" true).1 "s1" false).2 ≠
      "No thoughts recorded yet." := by decide

/-- C3 (amended): `review(sid, clear=true)` deletes only the session's
file; the follow-up `review(sid, clear=false)` returns the empty-chain
sentinel exactly when the subsequent load cannot observe the MongoDB
primary — because it is unavailable or holds no thoughts for the
session. -/
theorem C3_thm (st : Storage) (sid : String)
    (h : st.mongoAvailable = false ∨ st.mongo sid = []) :
    (sequentialReview (sequentialReview st sid true).1 sid false).2 =
      "No thoughts recorded yet." := by
  have hfile :
      (sequentialReview st sid true).1.file sid = none := by
    simp [sequentialReview]
  have hmongo :
      (sequentialReview st sid true).1.mongoAvailable = st.mongoAvailable ∧
      (sequentialReview st sid true).1.mongo sid = st.mongo sid := by
    simp [sequentialReview]
  have hload : loadThoughts (sequentialReview st sid true).1 sid = [] := by
    unfold loadThoughts
    rcases h with h | h
    · rw [hmongo.1, h]
      simp [loadThoughtsFromFile, hfile]
    · rw [hmongo.1, hmongo.2, h]
      cases hav : st.mongoAvailable <;>
        simp [loadThoughtsFromFile, hfile]
  have houter :
      (sequentialReview (sequentialReview st sid true).1 sid false).2 =
        formatThoughts (loadThoughts (sequentialReview st sid true).1 sid) :=
    rfl
  rw [houter, hload]
  rfl

/-- C3 witness: the amended statement on a storage state with the
MongoDB primary unavailable. -/
theorem C3_witness :
    (sequentialReview (sequentialReview stEmpty "s1" true).1 "s1" false).2 =
      "No thoughts recorded yet." :=
  C3_thm stEmpty "s1" (Or.inl rfl)

/-- C4 counterexample: the text "normal" contains no contradiction
marker as a whole word, yet it triggers the marker check (the substring
"no"), so the dedup bypass fires: even with the embedding oracle
reporting similarity `1 > 0.92`, a new entry is appended rather than
merged — contradicting the claimed whole-word matching. -/
theorem C4_counterexample :
    isContradiction "normal" = true ∧
    (∀ kw ∈ contradictionKeywords, kw ∉ pyWords (pyLower "normal")) ∧
    similarityFn cfgOne "alpha beta" "normal" > 92 / 100 ∧
    addThought cfgOne [tA] "normal" none "append" 1 "u1" =
      .ok ([tA, tN], tN) := by
  refine ⟨by decide, by decide, ?_, rfl⟩
  show (1 : ℚ) > 92 / 100
  norm_num

/-- C4 (amended): contradiction markers ("however", "but", "actually",
"wait", "no") are detected as case-insensitive SUBSTRING matches in the
candidate text (so a longer word containing one, such as "normal"
containing "no", also counts); whenever a marker is detected this way,
deduplication is bypassed and every in-budget append creates a new
entry, never a merge. -/
theorem C4_thm (cfg : Config) (thoughts : List Thought) (text : String)
    (now : Nat) (u : String) (hb : withinBudget thoughts text)
    (hc : isContradiction text = true) :
    addThought cfg thoughts text none "append" now u =
      .ok (thoughts ++ [newThought cfg thoughts text now u],
           newThought cfg thoughts text now u) := by
  rw [addThought_of_withinBudget cfg thoughts text none "append" now u hb]
  exact mutate_append cfg thoughts text none "append" now u
    (dedupMerge_contradiction cfg thoughts text now hc) (Or.inl rfl)

/-- C4 witness: appending a text containing "however" with the
embedding oracle available creates a new entry. -/
theorem C4_witness :
    addThought cfgOne [tA] "however the sign flips" none "append" 2 "u2" =
      .ok ([tA] ++ [newThought cfgOne [tA] "however the sign flips" 2 "u2"],
           newThought cfgOne [tA] "however the sign flips" 2 "u2") :=
  C4_thm cfgOne [tA] "however the sign flips" 2 "u2" (by decide) (by decide)

theorem dedupMerge_some (cfg : Config) (c : List Thought) (t : String)
    (now : Nat) (c2 : List Thought) (th : Thought)
    (h : dedupMerge cfg c t now = some (c2, th)) :
    ∃ last, c.getLast? = some last ∧
      c2 = c.dropLast ++ [mergedWith last t now] ∧
      th = mergedWith last t now := by
  unfold dedupMerge at h
  split at h
  · exact absurd h (by simp)
  · rename_i last hlast
    refine ⟨last, hlast, ?_⟩
    split at h
    · split at h
      · simp only [Option.some.injEq, Prod.mk.injEq] at h
        exact ⟨h.1.symm, h.2.symm⟩
      · exact absurd h (by simp)
    · exact absurd h (by simp)

theorem dedupMerge_some_length (cfg : Config) (c : List Thought)
    (t : String) (now : Nat) (c2 : List Thought) (th : Thought)
    (h : dedupMerge cfg c t now = some (c2, th)) :
    c2.length = c.length := by
  obtain ⟨last, hl, rfl, -⟩ := dedupMerge_some cfg c t now c2 th h
  have hne : c ≠ [] := by
    intro hc
    rw [hc] at hl
    exact absurd hl (by simp)
  have hpos : 0 < c.length := List.length_pos.mpr hne
  simp [List.length_dropLast]
  omega

theorem addThought_append_cases (cfg : Config) (c : List Thought)
    (t : String) (now : Nat) (u : String) (c1 : List Thought) (th : Thought)
    (h : addThought cfg c t none "append" now u = .ok (c1, th)) :
    c1.length = c.length ∨ c1 = c ++ [newThought cfg c t now u] := by
  unfold addThought at h
  split at h
  · exact absurd h (by simp)
  split at h
  · exact absurd h (by simp)
  unfold mutate at h
  cases hm : dedupMerge cfg c t now with
  | some r =>
    rw [hm] at h
    simp only [Except.ok.injEq] at h
    left
    obtain ⟨r2, rth⟩ := r
    rw [show c1 = r2 from (congrArg Prod.fst h).symm]
    exact dedupMerge_some_length cfg c t now r2 rth hm
  | none =>
    rw [hm] at h
    rw [if_pos (Or.inl rfl)] at h
    simp only [Except.ok.injEq, Prod.mk.injEq] at h
    right
    exact h.1.symm

theorem appendMany_le_length (cfg : Config)
    (inputs : List (String × Nat × String)) (c chain : List Thought)
    (h : appendMany cfg inputs c = .ok chain) :
    chain.length ≤ c.length + inputs.length := by
  induction inputs generalizing c with
  | nil =>
    simp only [appendMany, Except.ok.injEq] at h
    simp [← h]
  | cons p rest ih =>
    obtain ⟨t, now, u⟩ := p
    unfold appendMany at h
    cases ha : addThought cfg c t none "append" now u with
    | error e => rw [ha] at h; exact absurd h (by simp)
    | ok r =>
      rw [ha] at h
      obtain ⟨c1, th⟩ := r
      have hrec := ih c1 h
      have hone : c1.length ≤ c.length + 1 := by
        rcases addThought_append_cases cfg c t now u c1 th ha with h1 | h1
        · omega
        · rw [h1]; simp
      simp only [List.length_cons]
      omega

theorem C5_aux (cfg : Config) (inputs : List (String × Nat × String))
    (c chain : List Thought)
    (hsteps : c.map Thought.step = List.range c.length)
    (h : appendMany cfg inputs c = .ok chain)
    (hlen : chain.length = c.length + inputs.length) :
    chain.map Thought.step = List.range chain.length := by
  induction inputs generalizing c with
  | nil =>
    simp only [appendMany, Except.ok.injEq] at h
    rw [← h]
    exact hsteps
  | cons p rest ih =>
    obtain ⟨t, now, u⟩ := p
    unfold appendMany at h
    cases ha : addThought cfg c t none "append" now u with
    | error e => rw [ha] at h; exact absurd h (by simp)
    | ok r =>
      rw [ha] at h
      obtain ⟨c1, th⟩ := r
      rcases addThought_append_cases cfg c t now u c1 th ha with h1 | h1
      · have hle := appendMany_le_length cfg rest c1 chain h
        simp only [List.length_cons] at hlen
        omega
      · subst h1
        apply ih (c ++ [newThought cfg c t now u]) ?_ h ?_
        · rw [List.map_append, hsteps]
          simp only [List.map_cons, List.map_nil, newThought]
          rw [← List.range_succ]
          simp [List.length_append]
        · simp only [List.length_append, List.length_cons,
            List.length_nil] at hlen ⊢
          omega

/-- C5: if `N` appends (operation "append", no index) starting from the
empty chain all succeed and none of them merges — so the final chain
has exactly `N` entries — then the entries carry the step values
`0..N-1` in order, each assigned as the chain length at its append
time. -/
theorem C5_thm (cfg : Config) (inputs : List (String × Nat × String))
    (chain : List Thought) (h : appendMany cfg inputs [] = .ok chain)
    (hlen : chain.length = inputs.length) :
    chain.map Thought.step = List.range inputs.length := by
  have hmain := C5_aux cfg inputs [] chain (by simp) h (by simpa using hlen)
  rw [hlen] at hmain
  exact hmain

/-- C5 witness: two concrete appends from the empty chain produce steps
`[0, 1]`. -/
theorem C5_witness : ([tW0, tW1].map Thought.step) = List.range 2 :=
  C5_thm cfgNone [("alpha", 0, "u1"), ("gamma delta", 1, "u2")]
    [tW0, tW1] rfl rfl

/-- C6: every rejected mutation is atomic. Whenever `_add_thought`
raises — token budget, depth limit, invalid index or unknown operation
— the public think entry point returns the chain UNCHANGED together
with a descriptive error string (the rejected thought is never
persisted), and, being a total function, never lets the exception
escape. -/
theorem C6_thm (cfg : Config) (thoughts : List Thought)
    (thought bfs op : String) (now : Nat) (u : String) (bf : Option Int)
    (e : ThinkError) (ht : ¬ pyStrip thought = "")
    (hp : parseBranchFrom bfs = some bf)
    (he : addThought cfg thoughts (pyStrip thought) bf op now u =
      .error e) :
    sequentialThink cfg thoughts thought bfs op now u =
      (thoughts, "Error in sequential thinking: " ++ errMsg e) := by
  unfold sequentialThink
  rw [if_neg ht, hp]
  simp only [he]

/-- C6 witness: a `revise` with the out-of-range index 5 on the empty
chain is rejected, the chain stays empty and the error is surfaced as a
string. -/
theorem C6_witness :
    sequentialThink cfgNone [] "first step" "5" "revise" 0 "u" =
      ([], "Error in sequential thinking: " ++ errMsg .invalidIndex) :=
  C6_thm cfgNone [] "first step" "5" "revise" 0 "u" (some 5)
    .invalidIndex (by decide) rfl rfl

theorem reviseAt_length (l : List Thought) (i : Nat) (text : String)
    (now : Nat) : (reviseAt l i text now).length = l.length := by
  induction l generalizing i with
  | nil => rfl
  | cons t ts ih =>
    cases i with
    | zero => simp [reviseAt]
    | succ n => simp [reviseAt, ih]

theorem reviseAt_getElem_ne (l : List Thought) (i j : Nat) (text : String)
    (now : Nat) (h : j ≠ i) : (reviseAt l i text now)[j]? = l[j]? := by
  induction l generalizing i j with
  | nil => rfl
  | cons t ts ih =>
    cases i with
    | zero =>
      cases j with
      | zero => exact absurd rfl h
      | succ m => simp [reviseAt]
    | succ n =>
      cases j with
      | zero => simp [reviseAt]
      | succ m =>
        simp only [reviseAt, List.getElem?_cons_succ]
        exact ih n m (fun hh => h (by rw [hh]))

theorem reviseAt_getElem_eq (l : List Thought) (i : Nat) (text : String)
    (now : Nat) (h : i < l.length) :
    ∃ old, l[i]? = some old ∧
      (reviseAt l i text now)[i]? =
        some { old with text := text, timestamp := now } := by
  induction l generalizing i with
  | nil => simp at h
  | cons t ts ih =>
    cases i with
    | zero => exact ⟨t, by simp, by simp [reviseAt]⟩
    | succ n =>
      have hn : n < ts.length := by simpa using h
      obtain ⟨old, h1, h2⟩ := ih n hn
      refine ⟨old, by simpa using h1, ?_⟩
      simp only [reviseAt, List.getElem?_cons_succ]
      exact h2

/-- C7: an in-budget, non-merging `revise` with a valid index `i`
succeeds, replaces only the `text` and `timestamp` of entry `i`
(keeping its `step`, `uuid`, `semantic_id`, `confidence` and `parent`),
leaves every other entry unchanged, and leaves the chain length
unchanged. -/
theorem C7_thm (cfg : Config) (thoughts : List Thought) (text : String)
    (now : Nat) (u : String) (i : Nat) (hb : withinBudget thoughts text)
    (hm : dedupMerge cfg thoughts text now = none)
    (hi : i < thoughts.length) :
    addThought cfg thoughts text (some (i : Int)) "revise" now u =
      .ok (reviseAt thoughts i text now,
           newThought cfg thoughts text now u) ∧
    (reviseAt thoughts i text now).length = thoughts.length ∧
    (∀ j, j ≠ i → (reviseAt thoughts i text now)[j]? = thoughts[j]?) ∧
    ∃ old, thoughts[i]? = some old ∧
      (reviseAt thoughts i text now)[i]? =
        some { old with text := text, timestamp := now } := by
  refine ⟨?_, reviseAt_length thoughts i text now,
    fun j hj => reviseAt_getElem_ne thoughts i j text now hj,
    reviseAt_getElem_eq thoughts i text now hi⟩
  rw [addThought_of_withinBudget cfg thoughts text (some (i : Int))
    "revise" now u hb]
  unfold mutate
  rw [hm]
  have hcond : ¬("revise" = "append" ∨ (some (i : Int) : Option Int) = none) := by
    simp
  have hrange : 0 ≤ (i : Int) ∧ (i : Int) < (thoughts.length : Int) :=
    ⟨Int.natCast_nonneg i, by exact_mod_cast hi⟩
  simp [hcond, hrange, Int.toNat_natCast]

/-- C7 witness: revising entry 0 of a two-entry chain replaces only its
text and timestamp and leaves entry 1 and the length unchanged. -/
theorem C7_witness :
    addThought cfgNone [tA, tW1] "replacement text" (some ((0 : Nat) : Int))
        "revise" 9 "u9" =
      .ok (reviseAt [tA, tW1] 0 "replacement text" 9,
           newThought cfgNone [tA, tW1] "replacement text" 9 "u9") ∧
    (reviseAt [tA, tW1] 0 "replacement text" 9).length = [tA, tW1].length ∧
    (∀ j, j ≠ 0 →
      (reviseAt [tA, tW1] 0 "replacement text" 9)[j]? = [tA, tW1][j]?) ∧
    ∃ old, [tA, tW1][(0 : Nat)]? = some old ∧
      (reviseAt [tA, tW1] 0 "replacement text" 9)[(0 : Nat)]? =
        some { old with text := "replacement text", timestamp := 9 } :=
  C7_thm cfgNone [tA, tW1] "replacement text" 9 "u9" 0 (by decide) rfl
    (by decide)

/-- C8: file-backend round-trip. Saving a chain with unique step values
and loading it back yields a permutation of the saved chain (equal in
content, ignoring storage order), sorted by `step` ascending. -/
theorem C8_thm (st : Storage) (sid : String) (chain : List Thought)
    (_huniq : (chain.map Thought.step).Nodup) :
    (loadThoughtsFromFile (saveThoughtsToFile st sid chain) sid).Perm
      chain ∧
    List.Pairwise (fun a b => a.step ≤ b.step)
      (loadThoughtsFromFile (saveThoughtsToFile st sid chain) sid) := by
  have hfile : (saveThoughtsToFile st sid chain).file sid = some chain := by
    simp [saveThoughtsToFile]
  have hload : loadThoughtsFromFile (saveThoughtsToFile st sid chain) sid =
      chain.mergeSort (fun a b => a.step ≤ b.step) := by
    unfold loadThoughtsFromFile
    rw [hfile]
  constructor
  · rw [hload]
    exact List.mergeSort_perm chain _
  · rw [hload]
    have htrans : ∀ a b c : Thought, (decide (a.step ≤ b.step)) = true →
        (decide (b.step ≤ c.step)) = true →
        (decide (a.step ≤ c.step)) = true := by
      intro a b c h1 h2
      simp only [decide_eq_true_eq] at h1 h2 ⊢
      omega
    have htotal : ∀ a b : Thought,
        ((decide (a.step ≤ b.step)) || (decide (b.step ≤ a.step))) = true := by
      intro a b
      simp only [Bool.or_eq_true, decide_eq_true_eq]
      omega
    have hs := @List.sorted_mergeSort Thought
      (fun a b => decide (a.step ≤ b.step)) htrans htotal chain
    exact hs.imp (fun hab => of_decide_eq_true hab)

/-- C8 witness: a two-entry chain stored out of step order round-trips
to a permutation of itself sorted by step. -/
theorem C8_witness :
    (loadThoughtsFromFile (saveThoughtsToFile stEmpty "s1" [tS1, tS0])
      "s1").Perm [tS1, tS0] ∧
    List.Pairwise (fun a b => a.step ≤ b.step)
      (loadThoughtsFromFile (saveThoughtsToFile stEmpty "s1" [tS1, tS0])
        "s1") :=
  C8_thm stEmpty "s1" [tS1, tS0] (by decide)

/-- C9: when `branch_from` is absent, the operation argument is
ignored: any in-budget, non-merging call — whatever the operation
string, including "revise", "branch" or an unrecognized name — appends
a new thought with no parent; moreover the "Unknown operation" error is
unreachable whenever `branch_from` is absent, for every input. -/
theorem C9_thm (cfg : Config) (thoughts : List Thought) (text op : String)
    (now : Nat) (u : String) (hb : withinBudget thoughts text)
    (hm : dedupMerge cfg thoughts text now = none) :
    (addThought cfg thoughts text none op now u =
      .ok (thoughts ++ [newThought cfg thoughts text now u],
           newThought cfg thoughts text now u) ∧
     (newThought cfg thoughts text now u).parent = none) ∧
    ∀ (cfg2 : Config) (thoughts2 : List Thought) (text2 op2 : String)
      (now2 : Nat) (u2 : String),
      addThought cfg2 thoughts2 text2 none op2 now2 u2 ≠
        Except.error ThinkError.unknownOp := by
  refine ⟨⟨?_, rfl⟩, ?_⟩
  · rw [addThought_of_withinBudget cfg thoughts text none op now u hb]
    exact mutate_append cfg thoughts text none op now u hm (Or.inr rfl)
  · intro cfg2 thoughts2 text2 op2 now2 u2 hcontra
    unfold addThought at hcontra
    split at hcontra
    · exact absurd hcontra (by simp)
    split at hcontra
    · exact absurd hcontra (by simp)
    unfold mutate at hcontra
    cases hm2 : dedupMerge cfg2 thoughts2 text2 now2 with
    | some r =>
      rw [hm2] at hcontra
      exact absurd hcontra (by simp)
    | none =>
      rw [hm2] at hcontra
      rw [if_pos (Or.inr rfl)] at hcontra
      exact absurd hcontra (by simp)

/-- C9 witness: operation "branch" with `branch_from` "None"-parsed to
absent behaves exactly like an append, with no parent recorded. -/
theorem C9_witness :
    (addThought cfgNone [tA] "gamma delta" none "branch" 3 "u3" =
      .ok ([tA] ++ [newThought cfgNone [tA] "gamma delta" 3 "u3"],
           newThought cfgNone [tA] "gamma delta" 3 "u3") ∧
     (newThought cfgNone [tA] "gamma delta" 3 "u3").parent = none) ∧
    ∀ (cfg2 : Config) (thoughts2 : List Thought) (text2 op2 : String)
      (now2 : Nat) (u2 : String),
      addThought cfg2 thoughts2 text2 none op2 now2 u2 ≠
        Except.error ThinkError.unknownOp :=
  C9_thm cfgNone [tA] "gamma delta" "branch" 3 "u3" (by decide) rfl

/-- C10: deduplication runs before operation dispatch. For EVERY
operation and index argument — including a valid revise or branch
index — an in-budget call on a non-empty chain with the embedding
oracle available, no contradiction marker in the text, and similarity
to the last entry above `0.92` merges the text into the last entry
(delimited addendum, refreshed timestamp, step and parent unchanged,
chain length unchanged); the requested revise or branch never happens
and no parent is recorded. -/
theorem C10_thm (cfg : Config) (thoughts : List Thought) (text : String)
    (bf : Option Int) (op : String) (now : Nat) (u : String)
    (f : String → String → ℚ) (last : Thought)
    (hb : withinBudget thoughts text) (hf : cfg.embed = some f)
    (hl : thoughts.getLast? = some last)
    (hc : isContradiction text = false)
    (hs : f last.text text > 92 / 100) :
    addThought cfg thoughts text bf op now u =
      .ok (thoughts.dropLast ++ [mergedWith last text now],
           mergedWith last text now) ∧
    (mergedWith last text now).text =
      last.text ++ "\n[merged] " ++ text ∧
    (mergedWith last text now).timestamp = now ∧
    (mergedWith last text now).step = last.step ∧
    (mergedWith last text now).parent = last.parent ∧
    (thoughts.dropLast ++ [mergedWith last text now]).length =
      thoughts.length := by
  have hmerge : dedupMerge cfg thoughts text now =
      some (thoughts.dropLast ++ [mergedWith last text now],
            mergedWith last text now) := by
    unfold dedupMerge similarityFn
    simp [hl, hf, hc, hs]
  refine ⟨?_, rfl, rfl, rfl, rfl, ?_⟩
  · rw [addThought_of_withinBudget cfg thoughts text bf op now u hb]
    unfold mutate
    rw [hmerge]
  · have hne : thoughts ≠ [] := by
      intro hnil
      rw [hnil] at hl
      exact absurd hl (by simp)
    have hpos : 0 < thoughts.length := List.length_pos.mpr hne
    simp only [List.length_append, List.length_dropLast,
      List.length_cons, List.length_nil]
    omega

/-- C10 witness: a `revise` with the valid index 0 is preempted by the
merge when the embedding oracle reports similarity 1. -/
theorem C10_witness :
    addThought cfgOne [tA] "extended detail" (some 0) "revise" 7 "u7" =
      .ok ([tA].dropLast ++ [mergedWith tA "extended detail" 7],
           mergedWith tA "extended detail" 7) ∧
    (mergedWith tA "extended detail" 7).text =
      tA.text ++ "\n[merged] " ++ "extended detail" ∧
    (mergedWith tA "extended detail" 7).timestamp = 7 ∧
    (mergedWith tA "extended detail" 7).step = tA.step ∧
    (mergedWith tA "extended detail" 7).parent = tA.parent ∧
    ([tA].dropLast ++ [mergedWith tA "extended detail" 7]).length =
      [tA].length :=
  C10_thm cfgOne [tA] "extended detail" (some 0) "revise" 7 "u7"
    (fun _ _ => 1) tA (by decide) rfl rfl (by decide) (by norm_num)

end SeqThink
